import Mathlib

/-!
Verification of the metric-to-color-to-raster pipeline in `book_png.py`.

The Python source is shallowly embedded: Python floats are idealized as
rationals (reals where `math.log` is involved), Python `int()` truncation
is `pyInt`, generators that can raise become `Except`-valued functions,
and the global pseudo-random generator used by the `random` color mapper
is modelled by explicit state passing, parametrized over the PRNG
implementation (`random.seed` / `random.randint` are library code).
-/

/-- An RGB triple as produced by the color mappers: three Python ints. -/
abbrev Color := ℤ × ℤ × ℤ

/-- Python `int()` applied to a rational: truncation toward zero. -/
def pyInt (q : ℚ) : ℤ :=
  if 0 ≤ q then ⌊q⌋ else ⌈q⌉

/-- Embeds `red_blue` (book_png.py lines 34-37): `v = int(value*255); (v, 0, 255-v)`. -/
def red_blue (value : ℚ) : Color :=
  let v := pyInt (value * 255)
  (v, 0, 255 - v)

/-- Embeds `blue_red` (book_png.py lines 40-43): `v = int(value*255); (255-v, 0, v)`. -/
def blue_red (value : ℚ) : Color :=
  let v := pyInt (value * 255)
  (255 - v, 0, v)

/-- Embeds `heat` (book_png.py lines 46-53): three-segment ramp with
branch points at 0.33 and 0.66. -/
def heat (value : ℚ) : Color :=
  if value < 33/100 then (pyInt (value * 3 * 255), 0, 0)
  else if value < 66/100 then (255, pyInt ((value - 33/100) * 3 * 255), 0)
  else (255, 255, pyInt ((value - 66/100) * 3 * 255))

/-- Embeds `grayscale` (book_png.py lines 56-59): `v = int(value*255); (v, v, v)`. -/
def grayscale (value : ℚ) : Color :=
  let v := pyInt (value * 255)
  (v, v, v)

/-- Embeds `green_purple` (book_png.py lines 62-65): `v = int(value*255); (v, 255-v, v)`. -/
def green_purple (value : ℚ) : Color :=
  let v := pyInt (value * 255)
  (v, 255 - v, v)

/-- Embeds CPython `colorsys.hsv_to_rgb`, called by `rainbow`
(book_png.py lines 68-72); standard-library code, transcribed verbatim. -/
def hsv_to_rgb (h s v : ℚ) : ℚ × ℚ × ℚ :=
  if s = 0 then (v, v, v)
  else
    let i0 := pyInt (h * 6)
    let f := h * 6 - (i0 : ℚ)
    let p := v * (1 - s)
    let q := v * (1 - s * f)
    let t := v * (1 - s * (1 - f))
    let i := i0 % 6
    if i = 0 then (v, t, p)
    else if i = 1 then (q, v, p)
    else if i = 2 then (p, v, t)
    else if i = 3 then (p, q, t)
    else if i = 4 then (t, p, v)
    else (q, p, v)

/-- Embeds `rainbow` (book_png.py lines 68-72): hue rotation through
`colorsys.hsv_to_rgb(value, 1.0, 1.0)`, each channel times 255. -/
def rainbow (value : ℚ) : Color :=
  let c := hsv_to_rgb value 1 1
  (pyInt (c.1 * 255), pyInt (c.2.1 * 255), pyInt (c.2.2 * 255))

/-- Seed derivation in `random_per_value` (book_png.py line 77):
`random.seed(int(value * 10000))`. -/
def seedOf (v : ℚ) : ℤ := pyInt (v * 10000)

/-- Drawing three channels from a freshly seeded generator: `seedFn`
models `random.seed` (mapping a seed to a generator state) and `rand`
models one call to `random.randint(0, 255)`. -/
def drawTriple {S : Type} (seedFn : ℤ → S) (rand : S → S × ℤ) (seed : ℤ) : S × Color :=
  let s0 := seedFn seed
  let p1 := rand s0
  let p2 := rand p1.1
  let p3 := rand p2.1
  (p3.1, (p1.2, p2.2, p3.2))

/-- Embeds `random_per_value` (book_png.py lines 75-78): reseeds the
global generator from `int(value*10000)`, then draws three channels.
The incoming generator state `s` is the global state before the call;
the code overwrites it via `random.seed` before drawing. -/
def random_per_value {S : Type} (seedFn : ℤ → S) (rand : S → S × ℤ)
    (value : ℚ) (s : S) : S × Color :=
  drawTriple seedFn rand (seedOf value)

/-- Error message for `nltk.FreqDist.max` called on an empty distribution. -/
def freqDistMaxEmptyMsg : String := "ValueError: FreqDist.max on an empty FreqDist"

/-- Error message for Python float division by zero. -/
def zeroDivMsg : String := "ZeroDivisionError: float division by zero"

/-- Count of the most frequent token: `freq[freq.max()]` in
`word_frequency` / `word_frequency_linear` (book_png.py lines 100, 108). -/
def maxCount (words : List String) : ℕ :=
  (words.map fun w => words.count w).foldr max 0

/-- Embeds `word_frequency` (book_png.py lines 97-102).
`FreqDist.max()` raises ValueError on an empty distribution; when the
maximal count is 1, `math.log(1) = 0.0` and the per-word division
raises ZeroDivisionError at the first yield; otherwise one value
`log(count(word)) / log(count(mode))` per word. -/
noncomputable def word_frequency (words : List String) : Except String (List ℝ) :=
  if words.isEmpty then Except.error freqDistMaxEmptyMsg
  else if maxCount words = 1 then Except.error zeroDivMsg
  else Except.ok (words.map fun w =>
    Real.log (words.count w : ℝ) / Real.log (maxCount words : ℝ))

/-- Embeds `word_frequency_linear` (book_png.py lines 105-110): one
value `count(word) / count(mode)` per word; `FreqDist.max()` raises on
empty input; the denominator is at least 1 otherwise. -/
def word_frequency_linear (words : List String) : Except String (List ℚ) :=
  if words.isEmpty then Except.error freqDistMaxEmptyMsg
  else Except.ok (words.map fun w => (words.count w : ℚ) / (maxCount words : ℚ))

/-- Embeds `nltk.bigrams`: the list of adjacent token pairs. -/
def bigrams (words : List String) : List (String × String) :=
  words.zip words.tail

/-- Total count of bigrams whose first component is `w1`:
`cfd[w1].N()`, the denominator of `cfd[w1].freq(w2)`. -/
def condTotal (bs : List (String × String)) (w1 : String) : ℕ :=
  (bs.filter fun p => p.1 == w1).length

/-- Number of distinct successors of `w1`: `len(cfd[w1])`. -/
def distinctSucc (bs : List (String × String)) (w1 : String) : ℕ :=
  ((bs.filter fun p => p.1 == w1).map fun p => p.2).dedup.length

/-- Embeds `bigram_probability` (book_png.py lines 113-120): empty
bigram list yields the empty sequence; otherwise
`cfd[w1].freq(w2) = count(w1,w2) / count(w1,*)` per bigram. -/
def bigram_probability (words : List String) : List ℚ :=
  let bs := bigrams words
  if bs.isEmpty then []
  else bs.map fun p => (bs.count p : ℚ) / (condTotal bs p.1 : ℚ)

/-- Embeds `bigram_diversity` (book_png.py lines 123-131): empty bigram
list yields the empty sequence; otherwise `len(cfd[w1]) / max_count`
per bigram, where `max_count` ranges over all conditions. -/
def bigram_diversity (words : List String) : List ℚ :=
  let bs := bigrams words
  if bs.isEmpty then []
  else
    let m := ((bs.map fun p => p.1).dedup.map fun c => distinctSucc bs c).foldr max 0
    bs.map fun p => (distinctSucc bs p.1 : ℚ) / (m : ℚ)

/-- Embeds `word_length` (book_png.py lines 134-138): the denominator
defaults to 1 on empty input; division by zero can only occur when
every token is the empty string. -/
def word_length (words : List String) : Except String (List ℚ) :=
  let maxLen := if words.isEmpty then 1 else (words.map fun w => w.length).foldr max 0
  if maxLen = 0 then Except.error zeroDivMsg
  else Except.ok (words.map fun w => (w.length : ℚ) / (maxLen : ℚ))

/-- Embeds `word_position` (book_png.py lines 141-145): `i / total`
per position, 0 when the list is empty. -/
def word_position (words : List String) : List ℚ :=
  let total := words.length
  (List.range words.length).map fun i => if 0 < total then (i : ℚ) / (total : ℚ) else 0

/-- First-seen-order list of distinct tokens: the insertion order of
the `word_ids` dict in `unique_word_id` (book_png.py lines 148-160). -/
def firstSeen (words : List String) : List String :=
  words.foldl (fun acc w => if w ∈ acc then acc else acc ++ [w]) []

/-- Embeds `unique_word_id` (book_png.py lines 148-160): each distinct
token gets its first-seen index; values are `id / (distinct-1)`, with
denominator 1 when there are fewer than two distinct tokens. -/
def unique_word_id (words : List String) : List ℚ :=
  let uc := (firstSeen words).length
  let maxId : ℕ := if 1 < uc then uc - 1 else 1
  words.map fun w => (((firstSeen words).indexOf w : ℕ) : ℚ) / (maxId : ℚ)

/-- C1: the spec claims every color mapper keeps all three channels in
[0,255] for inputs in [0,1], and the code's own header comment promises
an RGB tuple (0-255, 0-255, 0-255); but `heat` at value 1.0 returns a
blue channel of `int(0.34*3*255) = 260`, outside [0,255]. -/
theorem heat_blue_channel_overflow_at_one :
    heat 1 = (255, 255, 260) ∧ ¬ (255 : ℤ) ≥ 260 := by
  constructor
  · have h1 : ¬ ((1 : ℚ) < 33/100) := by norm_num
    have h2 : ¬ ((1 : ℚ) < 66/100) := by norm_num
    have h3 : ((1 : ℚ) - 66/100) * 3 * 255 = 2601/10 := by norm_num
    have h4 : (0 : ℚ) ≤ 2601/10 := by norm_num
    have h5 : ⌊(2601/10 : ℚ)⌋ = 260 := by
      rw [Int.floor_eq_iff] <;> norm_num
    simp [heat, pyInt, h1, h2, h3, h4, h5]
  · decide

/-- C4 counterexample: the seed the code derives at v = 0.99996 is
`int(9999.6) = 9999`, not `round(9999.6) = 10000`; the code truncates
rather than rounds. -/
theorem seed_truncates_not_rounds :
    seedOf (99996/100000) = 9999 ∧
      round ((99996/100000 : ℚ) * 10000) = 10000 ∧
      seedOf (99996/100000) ≠ round ((99996/100000 : ℚ) * 10000) := by
  have hmul : (99996/100000 : ℚ) * 10000 = 49998/5 := by norm_num
  have hfl : ⌊(49998/5 : ℚ)⌋ = 9999 := by
    rw [Int.floor_eq_iff] <;> norm_num
  have h1 : seedOf (99996/100000) = 9999 := by
    have hpos : (0 : ℚ) ≤ (99996/100000 : ℚ) * 10000 := by norm_num
    simp only [seedOf, pyInt, hmul]
    rw [if_pos (by norm_num : (0:ℚ) ≤ 49998/5)]
    exact hfl
  have h2 : round ((99996/100000 : ℚ) * 10000) = 10000 := by
    rw [hmul, round_eq]
    have : (49998/5 : ℚ) + 1/2 = 100001/10 := by norm_num
    rw [this]
    rw [Int.floor_eq_iff] <;> norm_num
  exact ⟨h1, h2, by rw [h1, h2]; decide⟩

/-- C4 (amended): the random color mapper derives its seed exactly as
`int(v*10000)`, which equals `⌊v*10000⌋` for v ≥ 0, and the RGB triple
it returns depends only on the value, not on the incoming generator
state — so the same v yields the same color within and across runs. -/
theorem random_seed_formula_and_determinism {S : Type}
    (seedFn : ℤ → S) (rand : S → S × ℤ) (v : ℚ) (hv : 0 ≤ v) (s s' : S) :
    (random_per_value seedFn rand v s).2 = (random_per_value seedFn rand v s').2 ∧
      seedOf v = ⌊v * 10000⌋ ∧
      (random_per_value seedFn rand v s).2 = (drawTriple seedFn rand ⌊v * 10000⌋).2 := by
  have hseed : seedOf v = ⌊v * 10000⌋ := by
    have h10 : (0 : ℚ) ≤ v * 10000 := by positivity
    simp [seedOf, pyInt, h10]
  refine ⟨rfl, hseed, ?_⟩
  simp [random_per_value, hseed]

/-- Clamping applied by the renderer before any mapper is called
(book_png.py line 204): `max(0.0, min(1.0, val))`. -/
def clamp01 (v : ℚ) : ℚ := max 0 (min 1 v)

/-- Raster side length (book_png.py line 196):
`int(math.ceil(math.sqrt(len(values))))`, as the exact integer ceiling
of the square root. -/
def ceilSqrt (n : ℕ) : ℕ :=
  if Nat.sqrt n * Nat.sqrt n = n then Nat.sqrt n else Nat.sqrt n + 1

/-- The image as created by `Image.new` with background fill (0,0,0)
(book_png.py line 197). -/
def blankGrid : ℕ × ℕ → Color := fun _ => (0, 0, 0)

/-- One `img.putpixel(xy, c)` call: functional update of the grid. -/
def putpixel (g : ℕ × ℕ → Color) (xy : ℕ × ℕ) (c : Color) : ℕ × ℕ → Color :=
  fun p => if p = xy then c else g p

/-- The pixel writes issued by the render loop (book_png.py lines
200-205): for each index `i`, target `(i % size, i // size)` and color
`color_fn(clamp(values[i]))`. -/
def renderWrites (values : List ℚ) (colorFn : ℚ → Color) (size : ℕ) :
    List ((ℕ × ℕ) × Color) :=
  (List.range values.length).map fun i =>
    ((i % size, i / size), colorFn (clamp01 (values.getD i 0)))

/-- Applies a list of pixel writes in order, later writes overriding. -/
def applyWrites (ws : List ((ℕ × ℕ) × Color)) (g : ℕ × ℕ → Color) : ℕ × ℕ → Color :=
  ws.foldl (fun g w => putpixel g w.1 w.2) g

/-- The final raster of the render loop: all writes applied to the
black background grid, side `ceil(sqrt(len(values)))`. -/
def renderGrid (values : List ℚ) (colorFn : ℚ → Color) : ℕ × ℕ → Color :=
  applyWrites (renderWrites values colorFn (ceilSqrt values.length)) blankGrid

/-- The `word_data` accumulation (book_png.py lines 199-207): a pair
`(words[i], val)` with the raw (unclamped) value, appended while
`words` is truthy and `i < len(words)`. -/
def word_dataOf (values : List ℚ) (words : Option (List String)) : List (String × ℚ) :=
  match words with
  | none => []
  | some ws =>
    if ws.isEmpty then []
    else (List.range (min values.length ws.length)).map fun i =>
      (ws.getD i default, values.getD i 0)

/-- Diagnostic printed to stderr on empty input (book_png.py line 193). -/
def noValuesMsg : String := "No values to render"

/-- Result of `render` (book_png.py lines 178-211): the in-memory
image (None when nothing was rendered), the side length, the label
pairs, and the stderr diagnostic if any. -/
structure RenderOut where
  img : Option (ℕ × ℕ → Color)
  size : ℕ
  word_data : List (String × ℚ)
  stderrMsg : Option String

/-- Embeds `render` (book_png.py lines 178-211): on an empty value
sequence it writes nothing, reports the diagnostic and returns
`(None, 0, [])`; otherwise it builds the square raster and the label
pairs and returns them. -/
def render (values : List ℚ) (colorFn : ℚ → Color) (words : Option (List String)) :
    RenderOut :=
  if values.isEmpty then
    { img := none, size := 0, word_data := [], stderrMsg := some noValuesMsg }
  else
    { img := some (renderGrid values colorFn), size := ceilSqrt values.length,
      word_data := word_dataOf values words, stderrMsg := none }

/-- The HTML viewer's tooltip index computation (book_png.py line 456):
`idx = y * SIZE + x`. -/
def htmlIdx (size x y : ℕ) : ℕ := y * size + x

/-- Python `round` to the nearest integer, ties to even (used by
`round(v, 4)` in `render_html`, book_png.py line 234). -/
def pyRoundHalfEven (q : ℚ) : ℤ :=
  let f := ⌊q⌋
  let r := q - (f : ℚ)
  if r < 1/2 then f
  else if 1/2 < r then f + 1
  else if Even f then f else f + 1

/-- Python `round(v, 4)`: round to four decimal places. -/
def round4 (v : ℚ) : ℚ := (pyRoundHalfEven (v * 10000) : ℚ) / 10000

/-- The value array serialized by `render_html` (book_png.py line 234):
`[round(v, 4) for w, v in word_data]`. -/
def htmlValues (wd : List (String × ℚ)) : List ℚ := wd.map fun p => round4 p.2

/-- The word array serialized by `render_html` (book_png.py line 233). -/
def htmlWords (wd : List (String × ℚ)) : List String := wd.map fun p => p.1

/-- Helper: a nonempty list has `isEmpty = false`. -/
theorem isEmpty_false_of_ne_nil {α : Type} {l : List α} (h : l ≠ []) :
    l.isEmpty = false := by
  cases l with
  | nil => exact absurd rfl h
  | cons a t => rfl

/-- C2 counterexample: on an empty token sequence, `word_frequency`
raises (FreqDist.max on an empty distribution) instead of yielding an
empty value sequence. -/
theorem word_frequency_raises_on_empty :
    word_frequency [] = Except.error freqDistMaxEmptyMsg := rfl

/-- C2 (amended): the bigram metrics yield an empty value sequence on
fewer than two tokens, and word-length, word-position and unique-word
yield an empty value sequence on empty input, all without error; but
word-freq and word-freq-linear raise a ValueError on empty input. -/
theorem degenerate_inputs_amended (words : List String) (h2 : words.length < 2) :
    bigram_probability words = [] ∧ bigram_diversity words = [] ∧
      word_length [] = Except.ok [] ∧ word_position [] = [] ∧
      unique_word_id [] = [] ∧
      word_frequency [] = Except.error freqDistMaxEmptyMsg ∧
      word_frequency_linear [] = Except.error freqDistMaxEmptyMsg := by
  have hbs : bigrams words = [] := by
    rcases words with _ | ⟨a, _ | ⟨b, rest⟩⟩
    · rfl
    · rfl
    · simp only [List.length_cons] at h2
      omega
  refine ⟨?_, ?_, rfl, rfl, rfl, rfl, rfl⟩
  · simp [bigram_probability, hbs]
  · simp [bigram_diversity, hbs]

/-- Witness for the amended C2 at the single-token input. -/
theorem degenerate_inputs_witness :
    (["x"] : List String).length < 2 ∧
      (bigram_probability ["x"] = [] ∧ bigram_diversity ["x"] = [] ∧
        word_length [] = Except.ok [] ∧ word_position [] = [] ∧
        unique_word_id [] = [] ∧
        word_frequency [] = Except.error freqDistMaxEmptyMsg ∧
        word_frequency_linear [] = Except.error freqDistMaxEmptyMsg) :=
  ⟨by decide, degenerate_inputs_amended ["x"] (by decide)⟩

/-- C3 counterexample: on the token sequence ["a"] (nonempty, mode
frequency 1), `word_frequency` raises a division-by-zero error instead
of assigning the value 1.0 to the mode occurrence. -/
theorem word_frequency_raises_on_singleton :
    word_frequency ["a"] = Except.error zeroDivMsg := by
  have h1 : maxCount ["a"] = 1 := by decide
  simp [word_frequency, h1, freqDistMaxEmptyMsg, zeroDivMsg]

/-- C3 (amended): on a nonempty token sequence, word-freq-linear
assigns the value 1 exactly to every occurrence of the most frequent
token; word-freq does so as well provided the most frequent token
occurs at least twice (with mode frequency 1 it raises instead). -/
theorem mode_token_maps_to_one (words : List String) (hne : words ≠ []) (i : ℕ)
    (hi : i < words.length)
    (hmode : words.count (words.getD i default) = maxCount words) :
    (∃ L, word_frequency_linear words = Except.ok L ∧ L.getD i 0 = 1) ∧
      (2 ≤ maxCount words →
        ∃ L, word_frequency words = Except.ok L ∧ L.getD i 0 = 1) := by
  have hie : words.isEmpty = false := isEmpty_false_of_ne_nil hne
  have hgd : words.getD i default = words[i] := List.getD_eq_getElem words default hi
  have hmem : words[i] ∈ words := List.getElem_mem hi
  have hcpos : 0 < words.count words[i] := List.count_pos_iff.mpr hmem
  have hmaxpos : 0 < maxCount words := by
    rw [← hmode, hgd]; exact hcpos
  constructor
  · refine ⟨words.map fun w => (words.count w : ℚ) / (maxCount words : ℚ), ?_, ?_⟩
    · simp [word_frequency_linear, hie]
    · have hlen : i < (words.map fun w =>
          (words.count w : ℚ) / (maxCount words : ℚ)).length := by
        simpa using hi
      rw [List.getD_eq_getElem _ _ hlen, List.getElem_map]
      rw [hgd] at hmode
      rw [hmode]
      exact div_self (by exact_mod_cast hmaxpos.ne')
  · intro h2
    have hne1 : ¬ maxCount words = 1 := by omega
    refine ⟨words.map fun w =>
      Real.log (words.count w : ℝ) / Real.log (maxCount words : ℝ), ?_, ?_⟩
    · simp [word_frequency, hie, hne1]
    · have hlen : i < (words.map fun w =>
          Real.log (words.count w : ℝ) / Real.log (maxCount words : ℝ)).length := by
        simpa using hi
      rw [List.getD_eq_getElem _ _ hlen, List.getElem_map]
      rw [hgd] at hmode
      rw [hmode]
      have hgt1 : (1 : ℝ) < (maxCount words : ℝ) := by exact_mod_cast h2
      exact div_self (Real.log_ne_zero_of_pos_of_ne_one
        (lt_trans one_pos hgt1) (ne_of_gt hgt1))

/-- Witness for the amended C3 on ["a", "a"], whose mode "a" occurs
twice, at index 0. -/
theorem mode_token_maps_to_one_witness :
    ((["a", "a"] : List String) ≠ [] ∧ 0 < (["a", "a"] : List String).length ∧
        (["a", "a"] : List String).count ((["a", "a"] : List String).getD 0 default)
          = maxCount ["a", "a"]) ∧
      ((∃ L, word_frequency_linear ["a", "a"] = Except.ok L ∧ L.getD 0 0 = 1) ∧
        (2 ≤ maxCount ["a", "a"] →
          ∃ L, word_frequency ["a", "a"] = Except.ok L ∧ L.getD 0 0 = 1)) :=
  ⟨⟨by decide, by decide, by decide⟩,
    mode_token_maps_to_one ["a", "a"] (by decide) 0 (by decide) (by decide)⟩

/-- C10: on a nonempty token sequence whose most frequent token occurs
exactly once, `word_frequency` divides by `log(1) = 0` and raises a
division-by-zero error instead of producing values. -/
theorem word_frequency_zero_division (words : List String) (hne : words ≠ [])
    (h1 : maxCount words = 1) :
    word_frequency words = Except.error zeroDivMsg := by
  have hie : words.isEmpty = false := isEmpty_false_of_ne_nil hne
  simp [word_frequency, hie, h1]

/-- Witness for C10 on the all-distinct input ["a", "b"]. -/
theorem word_frequency_zero_division_witness :
    ((["a", "b"] : List String) ≠ [] ∧ maxCount ["a", "b"] = 1) ∧
      word_frequency ["a", "b"] = Except.error zeroDivMsg :=
  ⟨⟨by decide, by decide⟩,
    word_frequency_zero_division ["a", "b"] (by decide) (by decide)⟩

/-- Witness for the amended C4 at a concrete PRNG and value. -/
theorem random_seed_formula_witness :
    (0 : ℚ) ≤ 1/2 ∧
      ((random_per_value (fun z => z.toNat) (fun s => (s + 1, (s : ℤ))) (1/2) 0).2
          = (random_per_value (fun z => z.toNat) (fun s => (s + 1, (s : ℤ))) (1/2) 7).2 ∧
        seedOf (1/2) = ⌊(1/2 : ℚ) * 10000⌋ ∧
        (random_per_value (fun z => z.toNat) (fun s => (s + 1, (s : ℤ))) (1/2) 0).2
          = (drawTriple (fun z => z.toNat) (fun s => (s + 1, (s : ℤ))) ⌊(1/2 : ℚ) * 10000⌋).2) :=
  ⟨by norm_num,
    random_seed_formula_and_determinism (fun z => z.toNat)
      (fun s => (s + 1, (s : ℤ))) (1/2) (by norm_num) 0 7⟩

/-- Helper: a write list leaves untargeted pixels unchanged. -/
theorem applyWrites_not_mem {ws : List ((ℕ × ℕ) × Color)} {p : ℕ × ℕ}
    (h : p ∉ ws.map Prod.fst) (g : ℕ × ℕ → Color) : applyWrites ws g p = g p := by
  induction ws generalizing g with
  | nil => rfl
  | cons w t ih =>
    simp only [List.map_cons, List.mem_cons, not_or] at h
    show applyWrites t (putpixel g w.1 w.2) p = g p
    rw [ih h.2]
    simp [putpixel, h.1]

/-- Helper: with pairwise-distinct targets, a targeted pixel ends up
holding the color written to it. -/
theorem applyWrites_mem {ws : List ((ℕ × ℕ) × Color)}
    (hnd : (ws.map Prod.fst).Nodup) {p : ℕ × ℕ} {c : Color}
    (hmem : (p, c) ∈ ws) (g : ℕ × ℕ → Color) : applyWrites ws g p = c := by
  induction ws generalizing g with
  | nil => simp at hmem
  | cons w t ih =>
    simp only [List.map_cons, List.nodup_cons] at hnd
    rcases List.mem_cons.mp hmem with heq | htail
    · show applyWrites t (putpixel g w.1 w.2) p = c
      have hp : p ∉ t.map Prod.fst := by
        rw [← heq] at hnd
        exact hnd.1
      rw [applyWrites_not_mem hp]
      rw [← heq]
      simp [putpixel]
    · show applyWrites t (putpixel g w.1 w.2) p = c
      exact ih hnd.2 htail _

/-- Helper: the side length dominates the value count when squared. -/
theorem ceilSqrt_le_sq (n : ℕ) : n ≤ ceilSqrt n * ceilSqrt n := by
  unfold ceilSqrt
  split
  · next h => exact le_of_eq h.symm
  · next h => exact le_of_lt (Nat.lt_succ_sqrt n)

/-- Helper: the side length is the least natural whose square reaches
the value count. -/
theorem ceilSqrt_min (n t : ℕ) (h : n ≤ t * t) : ceilSqrt n ≤ t := by
  unfold ceilSqrt
  split
  · next heq =>
    calc Nat.sqrt n ≤ Nat.sqrt (t * t) := Nat.sqrt_le_sqrt h
    _ = t := Nat.sqrt_eq t
  · next hne =>
    by_contra hc
    push_neg at hc
    have ht : t ≤ Nat.sqrt n := by omega
    have hmul : t * t ≤ Nat.sqrt n * Nat.sqrt n := Nat.mul_le_mul ht ht
    have hs : Nat.sqrt n * Nat.sqrt n ≤ n := Nat.sqrt_le n
    exact hne (le_antisymm hs (le_trans h hmul))

/-- Helper: positivity of the side length for a nonempty raster. -/
theorem ceilSqrt_pos {n : ℕ} (h : 0 < n) : 0 < ceilSqrt n := by
  by_contra hc
  push_neg at hc
  have h0 : ceilSqrt n = 0 := by omega
  have := ceilSqrt_le_sq n
  rw [h0] at this
  omega

/-- Helper: the coordinate map `i ↦ (i mod s, i div s)` is injective. -/
theorem coord_inj (s : ℕ) : Function.Injective fun i : ℕ => (i % s, i / s) := by
  intro a b h
  have h1 : a % s = b % s := congrArg Prod.fst h
  have h2 : a / s = b / s := congrArg Prod.snd h
  calc a = s * (a / s) + a % s := (Nat.div_add_mod a s).symm
  _ = s * (b / s) + b % s := by rw [h1, h2]
  _ = b := Nat.div_add_mod b s

/-- Helper: the render loop targets pairwise-distinct pixels. -/
theorem renderWrites_keys_nodup (values : List ℚ) (colorFn : ℚ → Color) (s : ℕ) :
    ((renderWrites values colorFn s).map Prod.fst).Nodup := by
  unfold renderWrites
  rw [List.map_map]
  exact (List.nodup_range _).map (coord_inj s)

/-- Helper: each index contributes its write to the render loop. -/
theorem renderWrites_mem (values : List ℚ) (colorFn : ℚ → Color) (s i : ℕ)
    (hi : i < values.length) :
    ((i % s, i / s), colorFn (clamp01 (values.getD i 0)))
      ∈ renderWrites values colorFn s := by
  unfold renderWrites
  exact List.mem_map.mpr ⟨i, List.mem_range.mpr hi, rfl⟩

/-- Helper: indexing into a mapped range. -/
theorem getD_map_range {α : Type} {m i : ℕ} (f : ℕ → α) (d : α) (h : i < m) :
    ((List.range m).map f).getD i d = f i := by
  have hlen : i < ((List.range m).map f).length := by simpa using h
  rw [List.getD_eq_getElem _ _ hlen, List.getElem_map, List.getElem_range]

/-- C5: for a nonempty value sequence the renderer picks the least side
length whose square holds all values, fills pixel (x,y) with the mapped
color of value `y*size+x` (row-major from (0,0)), and every in-bounds
pixel whose linear index reaches past the values keeps the black
background. -/
theorem render_square_raster (values : List ℚ) (colorFn : ℚ → Color)
    (words : Option (List String)) (hne : values ≠ []) :
    ((render values colorFn words).size = ceilSqrt values.length ∧
      values.length ≤ ceilSqrt values.length * ceilSqrt values.length ∧
      ∀ t : ℕ, values.length ≤ t * t → ceilSqrt values.length ≤ t) ∧
    (render values colorFn words).img = some (renderGrid values colorFn) ∧
    (∀ x y : ℕ, x < ceilSqrt values.length → y < ceilSqrt values.length →
      y * ceilSqrt values.length + x < values.length →
      renderGrid values colorFn (x, y)
        = colorFn (clamp01 (values.getD (y * ceilSqrt values.length + x) 0))) ∧
    (∀ x y : ℕ, x < ceilSqrt values.length → y < ceilSqrt values.length →
      values.length ≤ y * ceilSqrt values.length + x →
      renderGrid values colorFn (x, y) = (0, 0, 0)) := by
  have hie : values.isEmpty = false := isEmpty_false_of_ne_nil hne
  have hn : 0 < values.length := List.length_pos.mpr hne
  have hs : 0 < ceilSqrt values.length := ceilSqrt_pos hn
  refine ⟨⟨?_, ceilSqrt_le_sq _, fun t ht => ceilSqrt_min _ t ht⟩, ?_, ?_, ?_⟩
  · simp [render, hie]
  · simp [render, hie]
  · intro x y hx hy hj
    set s := ceilSqrt values.length with hsdef
    have hcomm : y * s + x = s * y + x := by ring
    have hmod : (y * s + x) % s = x := by
      rw [hcomm, Nat.mul_add_mod, Nat.mod_eq_of_lt hx]
    have hdiv : (y * s + x) / s = y := by
      rw [hcomm, Nat.mul_add_div hs, Nat.div_eq_of_lt hx]
      omega
    have hmem := renderWrites_mem values colorFn s (y * s + x) hj
    rw [hmod, hdiv] at hmem
    exact applyWrites_mem (renderWrites_keys_nodup values colorFn s) hmem blankGrid
  · intro x y hx hy hj
    set s := ceilSqrt values.length with hsdef
    have hnot : (x, y) ∉ (renderWrites values colorFn s).map Prod.fst := by
      intro hmem
      unfold renderWrites at hmem
      rw [List.map_map] at hmem
      rcases List.mem_map.mp hmem with ⟨i, hir, hieq⟩
      have hilt : i < values.length := List.mem_range.mp hir
      have hxeq : i % s = x := congrArg Prod.fst hieq
      have hyeq : i / s = y := congrArg Prod.snd hieq
      have hdm : i = s * (i / s) + i % s := (Nat.div_add_mod i s).symm
      rw [hxeq, hyeq] at hdm
      have heq2 : i = y * s + x := by rw [hdm, Nat.mul_comm]
      rw [heq2] at hilt
      exact absurd hilt (not_lt.mpr hj)
    exact applyWrites_not_mem hnot blankGrid

/-- Helper: the side length of a 3-value raster is 2. -/
theorem ceilSqrt_three : ceilSqrt 3 = 2 := by
  have h1 := ceilSqrt_le_sq 3
  have h2 := ceilSqrt_min 3 2 (by norm_num)
  set c := ceilSqrt 3 with hc
  interval_cases c <;> omega

/-- Witness for C5: in a 3-value render on a 2-by-2 raster, the pixel
at (1,1) (linear index 3) keeps the background. -/
theorem render_square_raster_witness :
    (([0, 1/2, 1] : List ℚ) ≠ []) ∧
      renderGrid [0, 1/2, 1] grayscale (1, 1) = (0, 0, 0) :=
  ⟨by simp,
    (render_square_raster [0, 1/2, 1] grayscale none (by simp)).2.2.2 1 1
      (by show 1 < ceilSqrt 3; rw [ceilSqrt_three]; norm_num)
      (by show 1 < ceilSqrt 3; rw [ceilSqrt_three]; norm_num)
      (by show 3 ≤ 1 * ceilSqrt 3 + 1; rw [ceilSqrt_three])⟩

/-- C6: the render loop writes value `i` at grid coordinate
`(i mod size, i div size)`, and the HTML tooltip lookup `y*size+x`
applied to that coordinate recovers `i`: the two mappings compose to
the identity on value indices. -/
theorem index_roundtrip (values : List ℚ) (colorFn : ℚ → Color) (i : ℕ)
    (hne : values ≠ []) (hi : i < values.length) :
    ((renderWrites values colorFn (ceilSqrt values.length)).getD i
        ((0, 0), (0, 0, 0))).1
        = (i % ceilSqrt values.length, i / ceilSqrt values.length) ∧
      htmlIdx (ceilSqrt values.length) (i % ceilSqrt values.length)
        (i / ceilSqrt values.length) = i := by
  constructor
  · unfold renderWrites
    rw [getD_map_range _ _ hi]
  · unfold htmlIdx
    calc i / ceilSqrt values.length * ceilSqrt values.length
          + i % ceilSqrt values.length
        = ceilSqrt values.length * (i / ceilSqrt values.length)
          + i % ceilSqrt values.length := by ring
    _ = i := Nat.div_add_mod i (ceilSqrt values.length)

/-- Witness for C6: index 2 of a 3-value render lands at coordinate
(0,1) of the 2-by-2 raster and the tooltip lookup returns 2. -/
theorem index_roundtrip_witness :
    (([1/4, 1/2, 3/4] : List ℚ) ≠ []) ∧
      (((renderWrites [1/4, 1/2, 3/4] red_blue
            (ceilSqrt ([1/4, 1/2, 3/4] : List ℚ).length)).getD 2
          ((0, 0), (0, 0, 0))).1
          = (2 % ceilSqrt ([1/4, 1/2, 3/4] : List ℚ).length,
            2 / ceilSqrt ([1/4, 1/2, 3/4] : List ℚ).length) ∧
        htmlIdx (ceilSqrt ([1/4, 1/2, 3/4] : List ℚ).length)
          (2 % ceilSqrt ([1/4, 1/2, 3/4] : List ℚ).length)
          (2 / ceilSqrt ([1/4, 1/2, 3/4] : List ℚ).length) = 2) :=
  ⟨by simp, index_roundtrip [1/4, 1/2, 3/4] red_blue 2 (by simp) (by decide)⟩

/-- C7: on an empty value sequence the renderer writes no image
artifact, reports the diagnostic to the caller and returns normally
with `(None, 0, [])`. -/
theorem render_empty_no_artifact (colorFn : ℚ → Color) (words : Option (List String)) :
    render [] colorFn words
      = { img := none, size := 0, word_data := [], stderrMsg := some noValuesMsg } := rfl

/-- C8 counterexample: for the raw value 1/3 the renderer records the
raw value, but the HTML exporter serializes `round(1/3, 4) = 0.3333`,
which differs from the raw value — the tooltip does not show the raw
value unchanged. -/
theorem html_serializes_rounded_not_raw :
    word_dataOf [(1/3 : ℚ)] (some ["w"]) = [(("w" : String), (1/3 : ℚ))] ∧
      htmlValues (word_dataOf [(1/3 : ℚ)] (some ["w"])) = [(3333/10000 : ℚ)] ∧
      (3333/10000 : ℚ) ≠ (1/3 : ℚ) := by
  have hwd : word_dataOf [(1/3 : ℚ)] (some ["w"]) = [(("w" : String), (1/3 : ℚ))] := rfl
  have hfl : ⌊(1/3 : ℚ) * 10000⌋ = 3333 := by
    rw [show ((1/3 : ℚ) * 10000) = 10000/3 by norm_num]
    rw [Int.floor_eq_iff]
    constructor
    · norm_num
    · norm_num
  have hround : pyRoundHalfEven ((1/3 : ℚ) * 10000) = 3333 := by
    unfold pyRoundHalfEven
    rw [hfl]
    rw [if_pos]
    norm_num
  have hv : round4 (1/3 : ℚ) = 3333/10000 := by
    unfold round4
    rw [hround]
    norm_num
  refine ⟨hwd, ?_, by norm_num⟩
  rw [hwd]
  show [round4 ((1/3 : ℚ))] = [(3333/10000 : ℚ)]
  rw [hv]

/-- C8 (amended): the label pairs recorded by the renderer hold, for
every index, the raw metric value of that pixel; the HTML exporter
however serializes each value rounded to four decimal places, so the
tooltip shows the rounded value, not the raw value in general. -/
theorem word_data_raw_html_rounded (values : List ℚ) (ws : List String)
    (hws : ws ≠ []) (i : ℕ) (hi : i < values.length) (hiw : i < ws.length) :
    (word_dataOf values (some ws)).getD i (default, 0)
        = (ws.getD i default, values.getD i 0) ∧
      (htmlValues (word_dataOf values (some ws))).getD i 0
        = round4 (values.getD i 0) := by
  have hie : ws.isEmpty = false := isEmpty_false_of_ne_nil hws
  have hlt : i < min values.length ws.length := Nat.lt_min.mpr ⟨hi, hiw⟩
  have hwd : word_dataOf values (some ws)
      = (List.range (min values.length ws.length)).map fun j =>
          (ws.getD j default, values.getD j 0) := by
    simp [word_dataOf, hie]
  constructor
  · rw [hwd, getD_map_range _ _ hlt]
  · rw [hwd]
    unfold htmlValues
    rw [List.map_map, getD_map_range _ _ hlt]
    rfl

/-- Witness for the amended C8 at a single raw value 1/2. -/
theorem word_data_raw_html_rounded_witness :
    ((["w"] : List String) ≠ [] ∧ 0 < ([(1/2 : ℚ)] : List ℚ).length ∧
        0 < (["w"] : List String).length) ∧
      ((word_dataOf [(1/2 : ℚ)] (some ["w"])).getD 0 (default, 0)
          = ((["w"] : List String).getD 0 default, ([(1/2 : ℚ)] : List ℚ).getD 0 0) ∧
        (htmlValues (word_dataOf [(1/2 : ℚ)] (some ["w"]))).getD 0 0
          = round4 (([(1/2 : ℚ)] : List ℚ).getD 0 0)) :=
  ⟨⟨by simp, by simp, by simp⟩,
    word_data_raw_html_rounded [(1/2 : ℚ)] ["w"] (by simp) 0 (by simp) (by simp)⟩

/-- The render loop with the true stateful color mapper semantics: the
`random` mapper reads and writes the global generator, so colors are
drawn by threading the generator state through the per-value loop
(book_png.py lines 200-205). -/
def colorRun {S : Type} (cf : S → ℚ → S × Color) : S → List ℚ → S × List Color
  | s, [] => (s, [])
  | s, v :: vs =>
    let p := cf s (clamp01 v)
    let q := colorRun cf p.1 vs
    (q.1, p.2 :: q.2)

/-- The `random` color scheme as a stateful mapper over the global
generator state. -/
def randMapper {S : Type} (seedFn : ℤ → S) (rand : S → S × ℤ) :
    S → ℚ → S × Color :=
  fun s v => random_per_value seedFn rand v s

/-- Helper: a render pass under the random mapper produces the same
colors from any starting generator state, because each call reseeds. -/
theorem colorRun_state_independent {S : Type} (seedFn : ℤ → S) (rand : S → S × ℤ)
    (vs : List ℚ) : ∀ s s' : S,
    (colorRun (randMapper seedFn rand) s vs).2
      = (colorRun (randMapper seedFn rand) s' vs).2 := by
  induction vs with
  | nil => intro s s'; rfl
  | cons v t ih =>
    intro s s'
    show (randMapper seedFn rand s (clamp01 v)).2
          :: (colorRun (randMapper seedFn rand)
              (randMapper seedFn rand s (clamp01 v)).1 t).2
        = (randMapper seedFn rand s' (clamp01 v)).2
          :: (colorRun (randMapper seedFn rand)
              (randMapper seedFn rand s' (clamp01 v)).1 t).2
    have hcol : (randMapper seedFn rand s (clamp01 v)).2
        = (randMapper seedFn rand s' (clamp01 v)).2 := rfl
    rw [hcol, ih]

/-- C9: rendering the same value sequence twice in one process — the
second pass starting from whatever generator state the first pass left
behind — produces an identical color sequence, hence byte-identical
raster output; in particular the random mapper yields the same triple
for the same value in both runs. -/
theorem pipeline_second_run_identical {S : Type} (seedFn : ℤ → S)
    (rand : S → S × ℤ) (values : List ℚ) (s₀ : S) :
    (colorRun (randMapper seedFn rand)
        ((colorRun (randMapper seedFn rand) s₀ values).1) values).2
      = (colorRun (randMapper seedFn rand) s₀ values).2 :=
  colorRun_state_independent seedFn rand values _ s₀
